import Mathlib

/-!
Shallow embedding of the supportmatch core.

The entity model follows the table definitions in `src/shared/schema.ts`.
The operations follow `DatabaseStorage` in `src/server/storage.ts`
(whose behaviour coincides, for everything modelled here, with the
in-memory `MemStorage` variant), and the matching cycle and registration
flow follow `createMonthlyMatches` and the `POST /api/auth/register`
handler in `src/server/routes.ts`.

Timestamps are modelled as integers, the `maxUses` / `currentUses`
text columns as naturals (the code always stores `toString` of the
number obtained by `parseInt`), and database-generated UUIDs as a
`nextId` counter.  Every operation is purely functional: a mutating
call takes the storage state and returns the updated state.
-/

/-- Gender enum from schema.ts (`genderEnum`). -/
inductive Gender where
  | male
  | female
  | nonBinary
  | preferNotToSay
deriving DecidableEq, Repr

/-- Partnership status enum from schema.ts (`partnershipStatusEnum`). -/
inductive PStatus where
  | active
  | completed
  | endedEarly
  | cancelled
deriving DecidableEq, Repr

/-- Report status enum from schema.ts (`reportStatusEnum`). -/
inductive RStatus where
  | pending
  | investigating
  | resolved
  | dismissed
deriving DecidableEq, Repr

/-- Row of the `users` table (the fields the core reads). -/
structure User where
  id : String
  email : Option String
  gender : Option Gender
  isActive : Bool
  isAdmin : Bool
deriving DecidableEq, Repr

/-- Row of the `partnerships` table. -/
structure Partnership where
  id : Nat
  user1Id : String
  user2Id : String
  startDate : Int
  endDate : Int
  status : PStatus
deriving DecidableEq, Repr

/-- Row of the `exclusions` table. -/
structure Exclusion where
  id : Nat
  userId : String
  excludedUserId : String
  reason : Option String
deriving DecidableEq, Repr

/-- Row of the `reports` table. -/
structure Report where
  id : Nat
  reporterId : String
  reportedUserId : String
  partnershipId : Option Nat
  reason : String
  description : Option String
  status : RStatus
deriving DecidableEq, Repr

/-- Row of the `invite_codes` table. -/
structure InviteCode where
  code : String
  createdBy : String
  usedBy : Option String
  isActive : Bool
  maxUses : Nat
  currentUses : Nat
  expiresAt : Option Int
  usedAt : Option Int
deriving DecidableEq, Repr

/-- The whole persistent state visible to the core. -/
structure Storage where
  users : List User
  partnerships : List Partnership
  exclusions : List Exclusion
  reports : List Report
  inviteCodes : List InviteCode
  nextId : Nat
deriving Repr

/-- The empty database. -/
def Storage.empty : Storage :=
  { users := [], partnerships := [], exclusions := [], reports := [],
    inviteCodes := [], nextId := 0 }

/-- storage.ts `getInviteCode`: select the row with the given code. -/
def getInviteCode (s : Storage) (code : String) : Option InviteCode :=
  s.inviteCodes.find? (fun c => c.code == code)

/-- Outcome of `verifyInvite`, one constructor per distinct reason string. -/
inductive VerifyResult where
  | valid
  | notFound
  | deactivated
  | expired
  | exhausted
deriving DecidableEq, Repr

/-- storage.ts `verifyInvite`: look the code up and check activation,
expiry and use count, in that order. -/
def verifyInvite (s : Storage) (code : String) (now : Int) : VerifyResult :=
  match getInviteCode s code with
  | none => .notFound
  | some c =>
      if !c.isActive then .deactivated
      else if (match c.expiresAt with
               | some e => decide (e < now)
               | none => false) then .expired
      else if c.maxUses ≤ c.currentUses then .exhausted
      else .valid

/-- storage.ts `markInviteCodeAsUsed`: if the code exists, unconditionally
increment `currentUses`, overwrite `usedBy` / `usedAt`, and recompute
`isActive` as `currentUses < maxUses` on the incremented count. -/
def markInviteCodeAsUsed (s : Storage) (code usedBy : String) (now : Int) :
    Option InviteCode × Storage :=
  match getInviteCode s code with
  | none => (none, s)
  | some c =>
      let cu := c.currentUses + 1
      let c' : InviteCode :=
        { c with
            usedBy := some usedBy,
            currentUses := cu,
            usedAt := some now,
            isActive := decide (cu < c.maxUses) }
      (some c',
        { s with inviteCodes := s.inviteCodes.map (fun x => if x.code == code then c' else x) })

/-- storage.ts `consumeInvite`: delegates to `markInviteCodeAsUsed`. -/
def consumeInvite (s : Storage) (code userId : String) (now : Int) :
    Option InviteCode × Storage :=
  markInviteCodeAsUsed s code userId now

/-- storage.ts `deactivateInviteCode`: set `isActive` to false
unconditionally; returns the row, or none when absent. -/
def deactivateInviteCode (s : Storage) (code : String) :
    Option InviteCode × Storage :=
  match getInviteCode s code with
  | none => (none, s)
  | some c =>
      let c' : InviteCode := { c with isActive := false }
      (some c',
        { s with inviteCodes := s.inviteCodes.map (fun x => if x.code == code then c' else x) })

/-- storage.ts `createInviteCode`: insert a fresh row with `isActive = true`
and `currentUses = 0`. -/
def createInviteCode (s : Storage) (createdBy code : String) (maxUses : Nat)
    (expiresAt : Option Int) : InviteCode × Storage :=
  let c : InviteCode :=
    { code := code, createdBy := createdBy, usedBy := none, isActive := true,
      maxUses := maxUses, currentUses := 0, expiresAt := expiresAt, usedAt := none }
  (c, { s with inviteCodes := s.inviteCodes ++ [c] })

/-- storage.ts `createPartnership`: unconditionally insert a new row with
`status = "active"` and return it.  There is no check against existing
active partnerships of either participant. -/
def createPartnership (s : Storage) (user1Id user2Id : String)
    (startDate endDate : Int) : Partnership × Storage :=
  let p : Partnership :=
    { id := s.nextId, user1Id := user1Id, user2Id := user2Id,
      startDate := startDate, endDate := endDate, status := .active }
  (p, { s with partnerships := s.partnerships ++ [p], nextId := s.nextId + 1 })

/-- Does the partnership involve the given user (as either participant). -/
def appearsIn (userId : String) (p : Partnership) : Bool :=
  p.user1Id == userId || p.user2Id == userId

/-- The row predicate of `getActivePartnershipForUser`: status is active
and the user is one of the two participants. -/
def activeWith (userId : String) (p : Partnership) : Bool :=
  p.status == .active && appearsIn userId p

/-- storage.ts `getActivePartnershipForUser`: first active partnership
involving the user, if any. -/
def getActivePartnershipForUser (s : Storage) (userId : String) : Option Partnership :=
  s.partnerships.find? (activeWith userId)

/-- Partial partnership update, as accepted by `updatePartnership`
(the fields the callers of the core actually touch). -/
structure PartnershipUpdates where
  status : Option PStatus := none
  endDate : Option Int := none
deriving Repr

/-- JS object spread of a partial update over a partnership row. -/
def applyPartnershipUpdates (p : Partnership) (u : PartnershipUpdates) : Partnership :=
  { p with
      status := u.status.getD p.status,
      endDate := u.endDate.getD p.endDate }

/-- storage.ts `updatePartnership`: apply whatever updates are requested
to the row with the given id; no transition check of any kind. -/
def updatePartnership (s : Storage) (id : Nat) (u : PartnershipUpdates) :
    Option Partnership × Storage :=
  match s.partnerships.find? (fun p => p.id == id) with
  | none => (none, s)
  | some p =>
      let p' := applyPartnershipUpdates p u
      (some p',
        { s with partnerships := s.partnerships.map (fun x => if x.id == id then p' else x) })

/-- Partial report update, as accepted by `updateReport`. -/
structure ReportUpdates where
  status : Option RStatus := none
  description : Option (Option String) := none
deriving Repr

/-- JS object spread of a partial update over a report row. -/
def applyReportUpdates (r : Report) (u : ReportUpdates) : Report :=
  { r with
      status := u.status.getD r.status,
      description := u.description.getD r.description }

/-- storage.ts `updateReport`: apply whatever updates are requested to the
row with the given id; no transition check of any kind. -/
def updateReport (s : Storage) (id : Nat) (u : ReportUpdates) :
    Option Report × Storage :=
  match s.reports.find? (fun r => r.id == id) with
  | none => (none, s)
  | some r =>
      let r' := applyReportUpdates r u
      (some r',
        { s with reports := s.reports.map (fun x => if x.id == id then r' else x) })

/-- storage.ts `isUserExcluded`: does the owner have an exclusion row
naming the potential partner. -/
def isUserExcluded (s : Storage) (userId potentialPartnerId : String) : Bool :=
  (s.exclusions.filter (fun e => e.userId == userId)).any
    (fun e => e.excludedUserId == potentialPartnerId)

/-! ### Matching cycle (routes.ts `createMonthlyMatches`) -/

/-- The bucket key used by the grouping step: `user.gender || 'prefer_not_to_say'`. -/
def genderKey (u : User) : Gender :=
  u.gender.getD .preferNotToSay

/-- All gender values, covering every possible bucket key. -/
def genderList : List Gender :=
  [.male, .female, .nonBinary, .preferNotToSay]

/-- The pre-loop phase of `createMonthlyMatches`: active users who hold no
active partnership at the start of the run. -/
def availableUsers (s : Storage) : List User :=
  (s.users.filter (fun u => u.isActive)).filter
    (fun u => (getActivePartnershipForUser s u.id).isNone)

/-- The bucket of available users whose gender key equals `g`
(the `usersByGender` grouping preserves the scan order, as filter does). -/
def bucket (s : Storage) (g : Gender) : List User :=
  (availableUsers s).filter (fun u => genderKey u == g)

/-- Pair consecutive elements (index 0 with 1, 2 with 3, …); a trailing odd
element is left unpaired. -/
def pairConsecutive : List α → List (α × α)
  | a :: b :: rest => (a, b) :: pairConsecutive rest
  | _ => []

/-- All candidate pairs of one run: each bucket is shuffled and scanned
pairwise.  The shuffle (the `sort` with a random comparator) is modelled as
an explicit parameter; all theorems assume only that it permutes its input. -/
def candidatePairs (s : Storage) (shuffle : List User → List User) :
    List (User × User) :=
  genderList.flatMap (fun g => pairConsecutive (shuffle (bucket s g)))

/-- The exclusion screen applied to a candidate pair: accepted when neither
direction is excluded. -/
def pairAllowed (s : Storage) (a b : User) : Bool :=
  !(isUserExcluded s a.id b.id) && !(isUserExcluded s b.id a.id)

/-- Candidate pairs passing the two-directional exclusion check; exactly
these reach `createPartnership`. -/
def acceptedPairs (s : Storage) (shuffle : List User → List User) :
    List (User × User) :=
  (candidatePairs s shuffle).filter (fun ab => pairAllowed s ab.1 ab.2)

/-- The commit loop: create one partnership per accepted pair, in order. -/
def commitPairs (st : Storage) (cd ed : Int) : List (User × User) → Storage
  | [] => st
  | ab :: rest => commitPairs (createPartnership st ab.1.id ab.2.id cd ed).2 cd ed rest

/-- routes.ts `createMonthlyMatches`: filter, bucket, shuffle, pair, screen
for exclusions, and commit every accepted pair. -/
def createMonthlyMatches (s : Storage) (shuffle : List User → List User)
    (cd ed : Int) : Storage :=
  commitPairs s cd ed (acceptedPairs s shuffle)

/-- The partnership records a run appends, starting from id `nid`. -/
def pairRecords (nid : Nat) (cd ed : Int) : List (User × User) → List Partnership
  | [] => []
  | ab :: rest =>
      { id := nid, user1Id := ab.1.id, user2Id := ab.2.id,
        startDate := cd, endDate := ed, status := .active }
        :: pairRecords (nid + 1) cd ed rest

/-- The partnerships created by one complete run. -/
def newPartnerships (s : Storage) (shuffle : List User → List User)
    (cd ed : Int) : List Partnership :=
  pairRecords s.nextId cd ed (acceptedPairs s shuffle)

/-- The commit loop with a persistence-failure oracle: `fail k` says the
`k`-th `createPartnership` insert throws.  The source loop has no per-pair
try/catch, so the first throw aborts the remaining iterations; inserts
already awaited stay committed.  The boolean records whether the run
completed (`false` means the route answers 500). -/
def commitPairsF (st : Storage) (cd ed : Int) (fail : Nat → Bool) (k : Nat) :
    List (User × User) → Bool × Storage
  | [] => (true, st)
  | ab :: rest =>
      if fail k then (false, st)
      else commitPairsF (createPartnership st ab.1.id ab.2.id cd ed).2 cd ed fail (k + 1) rest

/-- `createMonthlyMatches` with the persistence-failure oracle. -/
def createMonthlyMatchesF (s : Storage) (shuffle : List User → List User)
    (cd ed : Int) (fail : Nat → Bool) : Bool × Storage :=
  commitPairsF s cd ed fail 0 (acceptedPairs s shuffle)

/-! ### Registration flow (routes.ts `POST /api/auth/register`) -/

/-- storage.ts `findUserByEmail`. -/
def findUserByEmail (s : Storage) (email : String) : Option User :=
  s.users.find? (fun u => u.email == some email)

/-- storage.ts `createLocalUser`: insert a fresh active non-admin user. -/
def createLocalUser (s : Storage) (email : String) : User × Storage :=
  let u : User :=
    { id := toString s.nextId, email := some email, gender := none,
      isActive := true, isAdmin := false }
  (u, { s with users := s.users ++ [u], nextId := s.nextId + 1 })

/-- Outcome of the registration handler. -/
inductive RegOutcome where
  | emailExists
  | inviteInvalid (r : VerifyResult)
  | createFailed
  | consumeFailed
  | created (uid : String)
deriving DecidableEq, Repr

/-- The register handler: existing-email check, then `verifyInvite`, then
`createLocalUser`, then `consumeInvite` — sequentially, with no transaction.
`failCreate` / `failConsume` model the respective storage call throwing
(the handler's catch block answers 500 and performs no compensation). -/
def register (s : Storage) (email inviteCode : String) (now : Int)
    (failCreate failConsume : Bool) : RegOutcome × Storage :=
  match findUserByEmail s email with
  | some _ => (.emailExists, s)
  | none =>
      match verifyInvite s inviteCode now with
      | .valid =>
          if failCreate then (.createFailed, s)
          else
            let us := createLocalUser s email
            if failConsume then (.consumeFailed, us.2)
            else
              let cs := consumeInvite us.2 inviteCode us.1.id now
              (.created us.1.id, cs.2)
      | r => (.inviteInvalid r, s)

/-! ### Invite ledger operation sequences -/

/-- One externally invokable invite-ledger operation: issue (the admin
route, which refuses an existing code before inserting), verify (read
only), consume, and deactivate. -/
inductive InviteOp where
  | issue (createdBy code : String) (maxUses : Nat) (expiresAt : Option Int)
  | verify (code : String) (now : Int)
  | consume (code usedBy : String) (now : Int)
  | deactivate (code : String)

/-- State effect of one invite operation, exactly as the code performs it
(in particular, consume never re-validates). -/
def applyInviteOp (s : Storage) : InviteOp → Storage
  | .issue createdBy code maxUses expiresAt =>
      match getInviteCode s code with
      | some _ => s
      | none => (createInviteCode s createdBy code maxUses expiresAt).2
  | .verify _ _ => s
  | .consume code usedBy now => (consumeInvite s code usedBy now).2
  | .deactivate code => (deactivateInviteCode s code).2

/-- Run a sequence of invite operations. -/
def runInviteOps (s : Storage) : List InviteOp → Storage
  | [] => s
  | op :: rest => runInviteOps (applyInviteOp s op) rest

/-- The guarded semantics the registration route realises: a consume is
attempted only after `verifyInvite` succeeds on the same state. -/
def applyInviteOpG (s : Storage) : InviteOp → Storage
  | .consume code usedBy now =>
      if verifyInvite s code now = .valid then (consumeInvite s code usedBy now).2 else s
  | op => applyInviteOp s op

/-- Run a sequence of invite operations under the guarded semantics. -/
def runInviteOpsG (s : Storage) : List InviteOp → Storage
  | [] => s
  | op :: rest => runInviteOpsG (applyInviteOpG s op) rest

/-! ### Derived predicates and sample states used by the theorems -/

/-- Does a candidate pair involve the given user id. -/
def pairHits (userId : String) (ab : User × User) : Bool :=
  ab.1.id == userId || ab.2.id == userId

/-- Executable form of the invite-ledger bound: every stored code satisfies
`currentUses ≤ maxUses`. -/
def invBound (s : Storage) : Bool :=
  s.inviteCodes.all (fun c => decide (c.currentUses ≤ c.maxUses))

/-- The record `markInviteCodeAsUsed` writes back for a found row. -/
def consumedRecord (c : InviteCode) (usedBy : String) (now : Int) : InviteCode :=
  { c with
      usedBy := some usedBy,
      currentUses := c.currentUses + 1,
      usedAt := some now,
      isActive := decide (c.currentUses + 1 < c.maxUses) }

/-- A sample active male user. -/
def mkUser (i : String) : User :=
  { id := i, email := none, gender := some .male, isActive := true, isAdmin := false }

/-- A sample active partnership between alice and bob. -/
def pAB : Partnership :=
  { id := 0, user1Id := "alice", user2Id := "bob",
    startDate := 0, endDate := 30, status := .active }

/-- A state in which alice already holds an active partnership. -/
def sWithActive : Storage :=
  { Storage.empty with partnerships := [pAB], nextId := 1 }

/-- A sample resolved (terminal) report. -/
def rRes : Report :=
  { id := 7, reporterId := "alice", reportedUserId := "bob", partnershipId := none,
    reason := "spam", description := none, status := .resolved }

/-- A state holding one resolved report. -/
def sWithResolved : Storage :=
  { Storage.empty with reports := [rRes], nextId := 8 }

/-- A fresh single-use invite code. -/
def invOne : InviteCode :=
  { code := "WELCOME1", createdBy := "root", usedBy := none, isActive := true,
    maxUses := 1, currentUses := 0, expiresAt := none, usedAt := none }

/-- A state holding the fresh single-use invite. -/
def sInvOne : Storage :=
  { Storage.empty with inviteCodes := [invOne] }

/-- The state after the single-use invite has been consumed once. -/
def sInvUsed : Storage :=
  (consumeInvite sInvOne "WELCOME1" "u1" 0).2

/-- A fresh multi-use invite code. -/
def invMulti : InviteCode :=
  { code := "TEAM5", createdBy := "root", usedBy := none, isActive := true,
    maxUses := 5, currentUses := 0, expiresAt := none, usedAt := none }

/-- A state holding the fresh multi-use invite. -/
def sInvMulti : Storage :=
  { Storage.empty with inviteCodes := [invMulti] }

/-- A two-use invite issued and then deactivated by an administrator. -/
def sReact : Storage :=
  runInviteOps Storage.empty [.issue "root" "INV2" 2 none, .deactivate "INV2"]

/-- Four available same-gender users and nothing else. -/
def sFour : Storage :=
  { Storage.empty with users := [mkUser "u1", mkUser "u2", mkUser "u3", mkUser "u4"] }

/-- Two available same-gender users and nothing else. -/
def sTwo : Storage :=
  { Storage.empty with users := [mkUser "u1", mkUser "u2"] }

/-! ### Generic lemmas about keyed row updates -/

/-- Updating every row matching a code replaces the found row in `find?`. -/
theorem find?_code_map (l : List InviteCode) (code : String) (c' : InviteCode)
    (hc : c'.code = code) :
    (l.map (fun x => if x.code == code then c' else x)).find? (fun x => x.code == code)
      = (l.find? (fun x => x.code == code)).map (fun _ => c') := by
  induction l with
  | nil => rfl
  | cons a t ih =>
      simp only [List.map_cons, List.find?_cons]
      by_cases h : a.code = code
      · have hb : (a.code == code) = true := by simp [h]
        have hcb : (c'.code == code) = true := by simp [hc]
        simp only [hb, if_true, hcb]
        rfl
      · have hb : (a.code == code) = false := by simp [h]
        simp only [hb, Bool.false_eq_true, if_false]
        exact ih

/-- Updating rows of one code leaves `find?` for another code unchanged. -/
theorem find?_code_map_ne (l : List InviteCode) (code code' : String) (c' : InviteCode)
    (hcc : c'.code = code') (hne : code' ≠ code) :
    (l.map (fun x => if x.code == code' then c' else x)).find? (fun x => x.code == code)
      = l.find? (fun x => x.code == code) := by
  induction l with
  | nil => rfl
  | cons a t ih =>
      simp only [List.map_cons, List.find?_cons]
      by_cases h : a.code = code'
      · have hb : (a.code == code') = true := by simp [h]
        have hab : (a.code == code) = false := by simp [h, hne]
        have hcb : (c'.code == code) = false := by simp [hcc, hne]
        simp only [hb, if_true, hcb, hab, Bool.false_eq_true, if_false]
        exact ih
      · have hb : (a.code == code') = false := by simp [h]
        simp only [hb, Bool.false_eq_true, if_false]
        cases hac : a.code == code
        · simp only [Bool.false_eq_true, if_false]
          exact ih
        · simp only [if_true]

/-- What one `markInviteCodeAsUsed` call does to a found row: returns the
consumed record and stores it under the same code. -/
theorem consume_found (s : Storage) (code u : String) (n : Int) (c : InviteCode)
    (h : getInviteCode s code = some c) :
    (markInviteCodeAsUsed s code u n).1 = some (consumedRecord c u n) ∧
    getInviteCode (markInviteCodeAsUsed s code u n).2 code = some (consumedRecord c u n) := by
  have h' : s.inviteCodes.find? (fun x => x.code == code) = some c := h
  have hcb := List.find?_some h'
  have hc' : c.code = code := by simpa using hcb
  have hcrec : (consumedRecord c u n).code = code := hc'
  have key : markInviteCodeAsUsed s code u n
      = (some (consumedRecord c u n),
         { s with inviteCodes :=
             s.inviteCodes.map (fun x => if x.code == code then consumedRecord c u n else x) }) := by
    unfold markInviteCodeAsUsed
    rw [h]
    rfl
  constructor
  · rw [key]
  · rw [key]
    unfold getInviteCode
    rw [find?_code_map s.inviteCodes code (consumedRecord c u n) hcrec, h']
    rfl

/-- Claim C1 (amended): `createPartnership` performs no conflict check at
all — for every state and every pair of user ids it succeeds, returns a row
with status `active`, and appends exactly that row. -/
theorem createPartnership_always_inserts (s : Storage) (u1 u2 : String) (sd ed : Int) :
    (createPartnership s u1 u2 sd ed).1.status = .active ∧
    (createPartnership s u1 u2 sd ed).2.partnerships
      = s.partnerships ++ [(createPartnership s u1 u2 sd ed).1] :=
  ⟨rfl, rfl⟩

/-- Claim C1 counterexample: alice already holds an active partnership, yet
`createPartnership` for alice succeeds and adds a new active record instead
of failing with a conflict. -/
theorem createPartnership_ignores_active_partner :
    (getActivePartnershipForUser sWithActive "alice").isSome = true ∧
    (createPartnership sWithActive "alice" "carol" 0 30).2.partnerships.length
      = sWithActive.partnerships.length + 1 ∧
    (createPartnership sWithActive "alice" "carol" 0 30).1.status = .active :=
  ⟨rfl, rfl, rfl⟩

/-- Claim C4 (amended): `updateReport` and `updatePartnership` apply any
requested status unconditionally — there is no legality check on the
transition and no failure other than an unknown id. -/
theorem updates_have_no_transition_check (s : Storage) (id : Nat)
    (ur : ReportUpdates) (up : PartnershipUpdates) :
    (∀ r, s.reports.find? (fun x => x.id == id) = some r →
        (updateReport s id ur).1 = some (applyReportUpdates r ur) ∧
        (applyReportUpdates r ur).status = ur.status.getD r.status) ∧
    (s.reports.find? (fun x => x.id == id) = none →
        updateReport s id ur = (none, s)) ∧
    (∀ p, s.partnerships.find? (fun x => x.id == id) = some p →
        (updatePartnership s id up).1 = some (applyPartnershipUpdates p up) ∧
        (applyPartnershipUpdates p up).status = up.status.getD p.status) ∧
    (s.partnerships.find? (fun x => x.id == id) = none →
        updatePartnership s id up = (none, s)) := by
  refine ⟨?_, ?_, ?_, ?_⟩
  · intro r h
    unfold updateReport
    rw [h]
    exact ⟨rfl, rfl⟩
  · intro h
    unfold updateReport
    rw [h]
  · intro p h
    unfold updatePartnership
    rw [h]
    exact ⟨rfl, rfl⟩
  · intro h
    unfold updatePartnership
    rw [h]

/-- Claim C4 witness: the amended theorem applied to the stored resolved
report. -/
theorem updates_have_no_transition_check_witness :
    (sWithResolved.reports.find? (fun x => x.id == 7) = some rRes) ∧
    (updateReport sWithResolved 7 { status := some .investigating }).1
      = some (applyReportUpdates rRes { status := some .investigating }) :=
  ⟨rfl, ((updates_have_no_transition_check sWithResolved 7
      { status := some .investigating } { status := none, endDate := none }).1 rRes rfl).1⟩

/-- Claim C4 counterexample: a transition out of the terminal state
`resolved` back to `pending` is accepted and mutates the stored report,
instead of failing and leaving the entity unchanged. -/
theorem report_terminal_transition_accepted :
    rRes.status = .resolved ∧
    (updateReport sWithResolved 7 { status := some .pending }).1
      = some { rRes with status := .pending } ∧
    (updateReport sWithResolved 7 { status := some .pending }).2.reports
      = [{ rRes with status := .pending }] :=
  ⟨rfl, rfl, rfl⟩

/-- Claim C3 (amended): `consumeInvite` does not re-validate.  Whenever the
code exists it increments `currentUses`, overwrites `usedBy` / `usedAt` and
recomputes `isActive`, regardless of exhaustion, deactivation or expiry; a
second consume of a `maxUses = 1` code therefore also succeeds, raising
`currentUses` to 2 (only `verifyInvite`, called by the registration route
before consuming, rejects such codes). -/
theorem consumeInvite_skips_validation (s : Storage) (code u1 u2 : String)
    (n1 n2 : Int) (c : InviteCode) (h : getInviteCode s code = some c) :
    (consumeInvite s code u1 n1).1 = some (consumedRecord c u1 n1) ∧
    getInviteCode (consumeInvite s code u1 n1).2 code = some (consumedRecord c u1 n1) ∧
    (consumeInvite (consumeInvite s code u1 n1).2 code u2 n2).1
      = some (consumedRecord (consumedRecord c u1 n1) u2 n2) ∧
    (c.maxUses = 1 → c.currentUses = 0 →
      (consumedRecord c u1 n1).isActive = false ∧
      (consumedRecord (consumedRecord c u1 n1) u2 n2).currentUses = 2) := by
  obtain ⟨h1, h2⟩ := consume_found s code u1 n1 c h
  obtain ⟨h3, _⟩ := consume_found _ code u2 n2 _ h2
  refine ⟨h1, h2, h3, ?_⟩
  intro hmax hcur
  constructor
  · simp [consumedRecord, hmax, hcur]
  · simp [consumedRecord, hcur]

/-- Claim C3 witness: the amended theorem applied to the fresh single-use
invite. -/
theorem consumeInvite_skips_validation_witness :
    (getInviteCode sInvOne "WELCOME1" = some invOne) ∧
    (consumeInvite sInvOne "WELCOME1" "u1" 0).1 = some (consumedRecord invOne "u1" 0) :=
  ⟨rfl, (consumeInvite_skips_validation sInvOne "WELCOME1" "u1" "u2" 0 1 invOne rfl).1⟩

/-- Claim C3 counterexample: the single-use code is used up after its first
consume (`verifyInvite` rejects it — reporting it as deactivated, since the
`isActive` check precedes the use-count check once consumption has flipped
the flag), yet a second consume succeeds and changes the stored row
(`currentUses` becomes 2) instead of failing with a conflict and leaving
the state unchanged. -/
theorem exhausted_consume_succeeds :
    verifyInvite sInvUsed "WELCOME1" 0 = .deactivated ∧
    (consumeInvite sInvUsed "WELCOME1" "u2" 1).1.isSome = true ∧
    (getInviteCode (consumeInvite sInvUsed "WELCOME1" "u2" 1).2 "WELCOME1").map
        InviteCode.currentUses = some 2 ∧
    getInviteCode (consumeInvite sInvUsed "WELCOME1" "u2" 1).2 "WELCOME1"
      ≠ getInviteCode sInvUsed "WELCOME1" := by
  decide

/-- Claim C10: every consumption overwrites `usedBy` / `usedAt` with the
latest consumer; after a second consumption the row records only the second
user, every other field carrying no trace of the first. -/
theorem markInviteCodeAsUsed_overwrites_usedBy (s : Storage) (code u1 u2 : String)
    (n1 n2 : Int) (c : InviteCode) (h : getInviteCode s code = some c) :
    ∃ c1, getInviteCode (markInviteCodeAsUsed s code u1 n1).2 code = some c1 ∧
      c1.usedBy = some u1 ∧ c1.usedAt = some n1 ∧
      ∃ c2, getInviteCode
          (markInviteCodeAsUsed (markInviteCodeAsUsed s code u1 n1).2 code u2 n2).2 code
          = some c2 ∧
        c2.usedBy = some u2 ∧ c2.usedAt = some n2 ∧
        c2.currentUses = c.currentUses + 2 ∧ c2.code = c.code ∧
        c2.createdBy = c.createdBy ∧ c2.maxUses = c.maxUses ∧
        c2.expiresAt = c.expiresAt := by
  obtain ⟨_, h2⟩ := consume_found s code u1 n1 c h
  obtain ⟨_, h4⟩ := consume_found _ code u2 n2 _ h2
  exact ⟨consumedRecord c u1 n1, h2, rfl, rfl,
    consumedRecord (consumedRecord c u1 n1) u2 n2, h4, rfl, rfl, rfl, rfl, rfl, rfl, rfl⟩

/-- Claim C10 witness: two consumptions of the multi-use invite leave only
the second consumer on the record. -/
theorem markInviteCodeAsUsed_overwrites_usedBy_witness :
    (getInviteCode sInvMulti "TEAM5" = some invMulti) ∧
    ((getInviteCode
        (markInviteCodeAsUsed (markInviteCodeAsUsed sInvMulti "TEAM5" "u1" 0).2 "TEAM5" "u2" 1).2
        "TEAM5").map InviteCode.usedBy = some (some "u2")) := by
  refine ⟨rfl, ?_⟩
  obtain ⟨c1, h1, hu1, ht1, c2, h2, hu2, _⟩ :=
    markInviteCodeAsUsed_overwrites_usedBy sInvMulti "TEAM5" "u1" "u2" 0 1 invMulti rfl
  rw [h2]
  simp [hu2]

/-! ### Invite-ledger step lemmas -/

/-- A successful `verifyInvite` means the code exists, is active and has
uses left. -/
theorem verifyInvite_valid_found (s : Storage) (code : String) (now : Int)
    (h : verifyInvite s code now = .valid) :
    ∃ c, getInviteCode s code = some c ∧ c.isActive = true ∧
      c.currentUses < c.maxUses := by
  unfold verifyInvite at h
  cases hg : getInviteCode s code with
  | none => rw [hg] at h; exact absurd h (by simp)
  | some c =>
      rw [hg] at h
      refine ⟨c, rfl, ?_⟩
      have h2 : (if !c.isActive then VerifyResult.deactivated
                 else if (match c.expiresAt with
                          | some e => decide (e < now)
                          | none => false) then VerifyResult.expired
                 else if c.maxUses ≤ c.currentUses then VerifyResult.exhausted
                 else VerifyResult.valid) = VerifyResult.valid := h
      cases hA : c.isActive with
      | false => rw [hA] at h2; simp at h2
      | true =>
          rw [hA] at h2
          simp only [Bool.not_true, Bool.false_eq_true, if_false] at h2
          cases hE : (match c.expiresAt with
                      | some e => decide (e < now)
                      | none => false) with
          | true => rw [hE] at h2; simp at h2
          | false =>
              rw [hE] at h2
              simp only [Bool.false_eq_true, if_false] at h2
              by_cases hcu : c.maxUses ≤ c.currentUses
              · rw [if_pos hcu] at h2; simp at h2
              · exact ⟨rfl, Nat.lt_of_not_le hcu⟩

/-- Closed form of `markInviteCodeAsUsed` on a found row. -/
theorem markInviteCodeAsUsed_eq (s : Storage) (code u : String) (n : Int)
    (c : InviteCode) (h : getInviteCode s code = some c) :
    markInviteCodeAsUsed s code u n
      = (some (consumedRecord c u n),
         { s with inviteCodes :=
             s.inviteCodes.map (fun x => if x.code == code then consumedRecord c u n else x) }) := by
  unfold markInviteCodeAsUsed
  rw [h]
  rfl

/-- Closed form of `deactivateInviteCode` on a found row. -/
theorem deactivateInviteCode_eq (s : Storage) (code : String)
    (c : InviteCode) (h : getInviteCode s code = some c) :
    deactivateInviteCode s code
      = (some { c with isActive := false },
         { s with inviteCodes :=
             s.inviteCodes.map (fun x => if x.code == code then { c with isActive := false } else x) }) := by
  unfold deactivateInviteCode
  rw [h]

/-- The code field stored for a found row matches the lookup key. -/
theorem getInviteCode_code (s : Storage) (code : String) (c : InviteCode)
    (h : getInviteCode s code = some c) : c.code = code := by
  have h' : s.inviteCodes.find? (fun x => x.code == code) = some c := h
  have hcb := List.find?_some h'
  simpa using hcb

/-- One raw invite operation never decreases `currentUses` of any code. -/
theorem currentUses_mono_step (s : Storage) (op : InviteOp) (code : String)
    (c : InviteCode) (h : getInviteCode s code = some c) :
    ∃ c', getInviteCode (applyInviteOp s op) code = some c' ∧
      c.currentUses ≤ c'.currentUses := by
  cases op with
  | issue cb code' mu exp =>
      cases hg : getInviteCode s code' with
      | some d =>
          refine ⟨c, ?_, Nat.le_refl _⟩
          simp only [applyInviteOp, hg]
          exact h
      | none =>
          refine ⟨c, ?_, Nat.le_refl _⟩
          simp only [applyInviteOp, hg, createInviteCode]
          unfold getInviteCode at h ⊢
          simp only [List.find?_append, h]
          rfl
  | verify code' now => exact ⟨c, h, Nat.le_refl _⟩
  | consume code' u now =>
      cases hg : getInviteCode s code' with
      | none =>
          refine ⟨c, ?_, Nat.le_refl _⟩
          simp only [applyInviteOp, consumeInvite]
          unfold markInviteCodeAsUsed
          rw [hg]
          exact h
      | some d =>
          by_cases hcc : code' = code
          · subst hcc
            have hdc : d = c := Option.some.inj (hg.symm.trans h)
            subst hdc
            refine ⟨consumedRecord d u now, ?_, Nat.le_succ _⟩
            simp only [applyInviteOp, consumeInvite]
            exact (consume_found s code' u now d hg).2
          · refine ⟨c, ?_, Nat.le_refl _⟩
            simp only [applyInviteOp, consumeInvite]
            rw [markInviteCodeAsUsed_eq s code' u now d hg]
            unfold getInviteCode at h ⊢
            rw [find?_code_map_ne s.inviteCodes code code' (consumedRecord d u now)
              (getInviteCode_code s code' d hg) hcc]
            exact h
  | deactivate code' =>
      cases hg : getInviteCode s code' with
      | none =>
          refine ⟨c, ?_, Nat.le_refl _⟩
          simp only [applyInviteOp]
          unfold deactivateInviteCode
          rw [hg]
          exact h
      | some d =>
          by_cases hcc : code' = code
          · subst hcc
            have hdc : d = c := Option.some.inj (hg.symm.trans h)
            subst hdc
            refine ⟨{ d with isActive := false }, ?_, Nat.le_refl _⟩
            simp only [applyInviteOp]
            rw [deactivateInviteCode_eq s code' d hg]
            unfold getInviteCode at hg ⊢
            rw [find?_code_map s.inviteCodes code' { d with isActive := false }
              (getInviteCode_code s code' d hg), hg]
            rfl
          · refine ⟨c, ?_, Nat.le_refl _⟩
            simp only [applyInviteOp]
            rw [deactivateInviteCode_eq s code' d hg]
            unfold getInviteCode at h ⊢
            rw [find?_code_map_ne s.inviteCodes code code' { d with isActive := false }
              (getInviteCode_code s code' d hg) hcc]
            exact h

/-- Raw operation sequences never decrease `currentUses` of any code. -/
theorem currentUses_mono_runs (s : Storage) (ops : List InviteOp) (code : String)
    (c : InviteCode) (h : getInviteCode s code = some c) :
    ∃ c', getInviteCode (runInviteOps s ops) code = some c' ∧
      c.currentUses ≤ c'.currentUses := by
  induction ops generalizing s c with
  | nil => exact ⟨c, h, Nat.le_refl _⟩
  | cons op rest ih =>
      obtain ⟨c1, h1, hle1⟩ := currentUses_mono_step s op code c h
      obtain ⟨c2, h2, hle2⟩ := ih (applyInviteOp s op) c1 h1
      exact ⟨c2, h2, Nat.le_trans hle1 hle2⟩

/-- One guarded invite operation preserves `currentUses ≤ maxUses` for all
stored codes. -/
theorem invBound_stepG (s : Storage) (op : InviteOp) (h : invBound s = true) :
    invBound (applyInviteOpG s op) = true := by
  cases op with
  | verify code now => exact h
  | issue cb code mu exp =>
      cases hg : getInviteCode s code with
      | some d => simpa only [applyInviteOpG, applyInviteOp, hg] using h
      | none =>
          simp only [applyInviteOpG, applyInviteOp, hg, createInviteCode]
          simp only [invBound, List.all_append, List.all_cons, List.all_nil,
            Bool.and_true] at h ⊢
          simp [h]
  | consume code u now =>
      by_cases hv : verifyInvite s code now = .valid
      · obtain ⟨c, hg, hA, hlt⟩ := verifyInvite_valid_found s code now hv
        simp only [applyInviteOpG]
        rw [if_pos hv]
        unfold consumeInvite
        rw [markInviteCodeAsUsed_eq s code u now c hg]
        simp only [invBound, List.all_eq_true] at h ⊢
        intro x hx
        obtain ⟨y, hy, hxy⟩ := List.mem_map.mp hx
        cases hb : y.code == code with
        | true =>
            simp only [hb, if_true] at hxy
            subst hxy
            simp only [consumedRecord, decide_eq_true_eq]
            omega
        | false =>
            simp only [hb, Bool.false_eq_true, if_false] at hxy
            subst hxy
            exact h y hy
      · simp only [applyInviteOpG]
        rw [if_neg hv]
        exact h
  | deactivate code =>
      cases hg : getInviteCode s code with
      | none =>
          have hid : applyInviteOpG s (.deactivate code) = s := by
            simp only [applyInviteOpG, applyInviteOp]
            unfold deactivateInviteCode
            rw [hg]
          rw [hid]
          exact h
      | some d =>
          simp only [applyInviteOpG, applyInviteOp]
          rw [deactivateInviteCode_eq s code d hg]
          simp only [invBound, List.all_eq_true] at h ⊢
          intro x hx
          obtain ⟨y, hy, hxy⟩ := List.mem_map.mp hx
          have hd : d ∈ s.inviteCodes := List.mem_of_find?_eq_some hg
          cases hb : y.code == code with
          | true =>
              simp only [hb, if_true] at hxy
              subst hxy
              exact h d hd
          | false =>
              simp only [hb, Bool.false_eq_true, if_false] at hxy
              subst hxy
              exact h y hy

/-- Guarded invite sequences preserve `currentUses ≤ maxUses`. -/
theorem invBound_runsG (s : Storage) (ops : List InviteOp) (h : invBound s = true) :
    invBound (runInviteOpsG s ops) = true := by
  induction ops generalizing s with
  | nil => exact h
  | cons op rest ih => exact ih (applyInviteOpG s op) (invBound_stepG s op h)

/-- One guarded invite operation never reactivates a deactivated code. -/
theorem inactive_stepG (s : Storage) (op : InviteOp) (code : String)
    (c : InviteCode) (h : getInviteCode s code = some c) (hF : c.isActive = false) :
    ∃ c', getInviteCode (applyInviteOpG s op) code = some c' ∧ c'.isActive = false := by
  cases op with
  | verify code' now => exact ⟨c, h, hF⟩
  | issue cb code' mu exp =>
      cases hg : getInviteCode s code' with
      | some d =>
          refine ⟨c, ?_, hF⟩
          simp only [applyInviteOpG, applyInviteOp, hg]
          exact h
      | none =>
          refine ⟨c, ?_, hF⟩
          simp only [applyInviteOpG, applyInviteOp, hg, createInviteCode]
          unfold getInviteCode at h ⊢
          simp only [List.find?_append, h]
          rfl
  | consume code' u now =>
      by_cases hv : verifyInvite s code' now = .valid
      · obtain ⟨d, hgd, hAd, _⟩ := verifyInvite_valid_found s code' now hv
        by_cases hcc : code' = code
        · subst hcc
          have hdc : d = c := Option.some.inj (hgd.symm.trans h)
          rw [hdc] at hAd
          rw [hAd] at hF
          exact absurd hF (by simp)
        · refine ⟨c, ?_, hF⟩
          simp only [applyInviteOpG]
          rw [if_pos hv]
          unfold consumeInvite
          rw [markInviteCodeAsUsed_eq s code' u now d hgd]
          unfold getInviteCode at h ⊢
          rw [find?_code_map_ne s.inviteCodes code code' (consumedRecord d u now)
            (getInviteCode_code s code' d hgd) hcc]
          exact h
      · refine ⟨c, ?_, hF⟩
        simp only [applyInviteOpG]
        rw [if_neg hv]
        exact h
  | deactivate code' =>
      cases hg : getInviteCode s code' with
      | none =>
          refine ⟨c, ?_, hF⟩
          simp only [applyInviteOpG, applyInviteOp]
          unfold deactivateInviteCode
          rw [hg]
          exact h
      | some d =>
          by_cases hcc : code' = code
          · subst hcc
            have hdc : d = c := Option.some.inj (hg.symm.trans h)
            subst hdc
            refine ⟨{ d with isActive := false }, ?_, rfl⟩
            simp only [applyInviteOpG, applyInviteOp]
            rw [deactivateInviteCode_eq s code' d hg]
            unfold getInviteCode at hg ⊢
            rw [find?_code_map s.inviteCodes code' { d with isActive := false }
              (getInviteCode_code s code' d hg), hg]
            rfl
          · refine ⟨c, ?_, hF⟩
            simp only [applyInviteOpG, applyInviteOp]
            rw [deactivateInviteCode_eq s code' d hg]
            unfold getInviteCode at h ⊢
            rw [find?_code_map_ne s.inviteCodes code code' { d with isActive := false }
              (getInviteCode_code s code' d hg) hcc]
            exact h

/-- Guarded invite sequences never reactivate a deactivated code. -/
theorem inactive_runsG (s : Storage) (ops : List InviteOp) (code : String)
    (c : InviteCode) (h : getInviteCode s code = some c) (hF : c.isActive = false) :
    ∃ c', getInviteCode (runInviteOpsG s ops) code = some c' ∧ c'.isActive = false := by
  induction ops generalizing s c with
  | nil => exact ⟨c, h, hF⟩
  | cons op rest ih =>
      obtain ⟨c1, h1, hF1⟩ := inactive_stepG s op code c h hF
      exact ih (applyInviteOpG s op) c1 h1 hF1

/-- Claim C2 (amended): over raw operation sequences `currentUses` is
non-decreasing, but the use-count bound and deactivation monotonicity hold
only under the guarded discipline (consume only after a successful verify,
as the registration route does): then every code keeps
`currentUses ≤ maxUses` and an inactive code never becomes active again. -/
theorem inviteLedger_monotonicity :
    (∀ (s : Storage) (ops : List InviteOp) (code : String) (c : InviteCode),
        getInviteCode s code = some c →
        ∃ c', getInviteCode (runInviteOps s ops) code = some c' ∧
          c.currentUses ≤ c'.currentUses) ∧
    (∀ (s : Storage) (ops : List InviteOp),
        invBound s = true → invBound (runInviteOpsG s ops) = true) ∧
    (∀ (s : Storage) (ops : List InviteOp) (code : String) (c : InviteCode),
        getInviteCode s code = some c → c.isActive = false →
        ∃ c', getInviteCode (runInviteOpsG s ops) code = some c' ∧
          c'.isActive = false) :=
  ⟨currentUses_mono_runs, invBound_runsG, inactive_runsG⟩

/-- Claim C2 witness: the amended theorem applied to the multi-use invite
and a concrete consume / deactivate / consume sequence. -/
theorem inviteLedger_monotonicity_witness :
    (invBound sInvMulti = true) ∧
    (invBound (runInviteOpsG sInvMulti
        [.consume "TEAM5" "u1" 0, .deactivate "TEAM5", .consume "TEAM5" "u2" 1]) = true) :=
  ⟨rfl,
   inviteLedger_monotonicity.2.1 sInvMulti
     [.consume "TEAM5" "u1" 0, .deactivate "TEAM5", .consume "TEAM5" "u2" 1] rfl⟩

/-- Claim C2 counterexample: consuming a deactivated two-use code sets
`isActive` back to true, and consuming an exhausted single-use code drives
`currentUses` above `maxUses`. -/
theorem invite_deactivation_not_monotonic :
    ((getInviteCode sReact "INV2").map InviteCode.isActive = some false) ∧
    ((getInviteCode (applyInviteOp sReact (.consume "INV2" "u1" 0)) "INV2").map
        InviteCode.isActive = some true) ∧
    ((getInviteCode (runInviteOps Storage.empty
        [.issue "root" "INV1" 1 none, .consume "INV1" "u1" 0, .consume "INV1" "u2" 1])
        "INV1").map (fun c => decide (c.maxUses < c.currentUses)) = some true) := by
  decide

/-! ### Registration flow lemmas -/

/-- `consumeInvite` never touches the users table. -/
theorem consumeInvite_users (s : Storage) (code u : String) (n : Int) :
    (consumeInvite s code u n).2.users = s.users := by
  unfold consumeInvite markInviteCodeAsUsed
  cases getInviteCode s code <;> rfl

/-- Closed form of `register` when the email is taken. -/
theorem register_eq_email (s : Storage) (e cd : String) (now : Int) (fc fs : Bool)
    (u : User) (hf : findUserByEmail s e = some u) :
    register s e cd now fc fs = (.emailExists, s) := by
  unfold register
  rw [hf]

/-- Closed form of `register` when the invite fails verification. -/
theorem register_eq_invalid (s : Storage) (e cd : String) (now : Int) (fc fs : Bool)
    (r : VerifyResult) (hf : findUserByEmail s e = none)
    (hv : verifyInvite s cd now = r) (hr : r ≠ .valid) :
    register s e cd now fc fs = (.inviteInvalid r, s) := by
  unfold register
  rw [hf, hv]
  cases r with
  | valid => exact absurd rfl hr
  | notFound => rfl
  | deactivated => rfl
  | expired => rfl
  | exhausted => rfl

/-- Closed form of `register` when account creation throws. -/
theorem register_eq_createFailed (s : Storage) (e cd : String) (now : Int) (fs : Bool)
    (hf : findUserByEmail s e = none) (hv : verifyInvite s cd now = .valid) :
    register s e cd now true fs = (.createFailed, s) := by
  unfold register
  rw [hf, hv]
  rfl

/-- Closed form of `register` when invite consumption throws after the
account has been created: the account stays, nothing is rolled back. -/
theorem register_eq_consumeFailed (s : Storage) (e cd : String) (now : Int)
    (hf : findUserByEmail s e = none) (hv : verifyInvite s cd now = .valid) :
    register s e cd now false true = (.consumeFailed, (createLocalUser s e).2) := by
  unfold register
  rw [hf, hv]
  rfl

/-- Closed form of `register` on the fully successful path. -/
theorem register_eq_ok (s : Storage) (e cd : String) (now : Int)
    (hf : findUserByEmail s e = none) (hv : verifyInvite s cd now = .valid) :
    register s e cd now false false
      = (.created (createLocalUser s e).1.id,
         (consumeInvite (createLocalUser s e).2 cd (createLocalUser s e).1.id now).2) := by
  unfold register
  rw [hf, hv]
  rfl

/-- Claim C9 (amended): registration is not a transaction.  The invite
ledger changes only when the outcome is a fully created account (so a code
is never consumed without its account — consumption always follows
creation); but when consumption throws after the account insert, the
account persists while the code stays unconsumed, and nothing is rolled
back. -/
theorem register_not_transactional :
    (∀ (s : Storage) (e cd : String) (now : Int) (fc fs : Bool),
        (register s e cd now fc fs).2.inviteCodes ≠ s.inviteCodes →
        ∃ uid, (register s e cd now fc fs).1 = .created uid ∧
          ∃ u, findUserByEmail (register s e cd now fc fs).2 e = some u ∧ u.id = uid) ∧
    (∀ (s : Storage) (e cd : String) (now : Int),
        findUserByEmail s e = none → verifyInvite s cd now = .valid →
        register s e cd now false true = (.consumeFailed, (createLocalUser s e).2) ∧
        (createLocalUser s e).2.inviteCodes = s.inviteCodes ∧
        (createLocalUser s e).2.users = s.users ++ [(createLocalUser s e).1]) := by
  constructor
  · intro s e cd now fc fs hne
    cases hf : findUserByEmail s e with
    | some u => rw [register_eq_email s e cd now fc fs u hf] at hne ⊢; exact absurd rfl hne
    | none =>
        by_cases hv : verifyInvite s cd now = .valid
        · cases fc with
          | true =>
              rw [register_eq_createFailed s e cd now fs hf hv] at hne ⊢
              exact absurd rfl hne
          | false =>
              cases fs with
              | true =>
                  rw [register_eq_consumeFailed s e cd now hf hv] at hne ⊢
                  exact absurd rfl hne
              | false =>
                  rw [register_eq_ok s e cd now hf hv] at hne ⊢
                  refine ⟨(createLocalUser s e).1.id, rfl, (createLocalUser s e).1, ?_, rfl⟩
                  unfold findUserByEmail at hf ⊢
                  rw [consumeInvite_users]
                  show ((s.users ++ [(createLocalUser s e).1]).find? _) = _
                  rw [List.find?_append, hf]
                  simp [createLocalUser]
        · rw [register_eq_invalid s e cd now fc fs (verifyInvite s cd now) hf rfl hv] at hne ⊢
          exact absurd rfl hne
  · intro s e cd now hf hv
    exact ⟨register_eq_consumeFailed s e cd now hf hv, rfl, rfl⟩

/-- Claim C9 witness: the amended theorem applied to the fresh single-use
invite and a new email. -/
theorem register_not_transactional_witness :
    (findUserByEmail sInvOne "ann" = none) ∧
    (verifyInvite sInvOne "WELCOME1" 0 = .valid) ∧
    (register sInvOne "ann" "WELCOME1" 0 false true
      = (.consumeFailed, (createLocalUser sInvOne "ann").2)) :=
  ⟨rfl, rfl,
   (register_not_transactional.2 sInvOne "ann" "WELCOME1" 0 rfl rfl).1⟩

/-- Claim C9 counterexample: with a valid invite and a fresh email, a
consumption failure after the account insert leaves the account created
and the invite unconsumed — neither the both-succeed nor the
both-unchanged outcome the claim requires. -/
theorem register_consume_failure_keeps_account :
    (register sInvOne "ann" "WELCOME1" 0 false true).1 = .consumeFailed ∧
    (register sInvOne "ann" "WELCOME1" 0 false true).2.users.length = 1 ∧
    sInvOne.users.length = 0 ∧
    (getInviteCode (register sInvOne "ann" "WELCOME1" 0 false true).2 "WELCOME1").map
        InviteCode.currentUses = some 0 := by
  decide

/-! ### Matching-cycle lemmas -/

/-- The commit loop appends exactly the records of its pairs. -/
theorem commitPairs_partnerships (cd ed : Int) :
    ∀ (ps : List (User × User)) (st : Storage),
      (commitPairs st cd ed ps).partnerships
        = st.partnerships ++ pairRecords st.nextId cd ed ps
  | [], st => by simp [commitPairs, pairRecords]
  | ab :: rest, st => by
      have ih := commitPairs_partnerships cd ed rest (createPartnership st ab.1.id ab.2.id cd ed).2
      simp only [commitPairs, pairRecords]
      rw [ih]
      simp [createPartnership, List.append_assoc]

/-- Every record of a pair list comes from one of its pairs and is active. -/
theorem mem_pairRecords (cd ed : Int) :
    ∀ (ps : List (User × User)) (nid : Nat) (p : Partnership),
      p ∈ pairRecords nid cd ed ps →
      ∃ ab ∈ ps, p.user1Id = ab.1.id ∧ p.user2Id = ab.2.id ∧ p.status = .active
  | [], nid, p => by simp [pairRecords]
  | ab :: rest, nid, p => by
      intro hp
      simp only [pairRecords, List.mem_cons] at hp
      rcases hp with h | h
      · subst h
        exact ⟨ab, List.mem_cons_self ab rest, rfl, rfl, rfl⟩
      · obtain ⟨xy, hxy, h1, h2, h3⟩ := mem_pairRecords cd ed rest (nid + 1) p h
        exact ⟨xy, List.mem_cons_of_mem ab hxy, h1, h2, h3⟩

/-- Counting records of a run that involve a user equals counting its pairs
that involve the user (every created record is active). -/
theorem countP_pairRecords (uid : String) (cd ed : Int) :
    ∀ (ps : List (User × User)) (nid : Nat),
      (pairRecords nid cd ed ps).countP (activeWith uid)
        = ps.countP (pairHits uid)
  | [], nid => by simp [pairRecords]
  | ab :: rest, nid => by
      have ih := countP_pairRecords uid cd ed rest (nid + 1)
      simp only [pairRecords, List.countP_cons, ih]
      have hcond : activeWith uid
          { id := nid, user1Id := ab.1.id, user2Id := ab.2.id,
            startDate := cd, endDate := ed, status := .active }
          = pairHits uid ab := by
        simp [activeWith, appearsIn, pairHits]
      rw [hcond]

/-- Pairing consecutive elements uses each list member at most once. -/
theorem countP_pairConsecutive_le (uid : String) :
    ∀ L : List User, (pairConsecutive L).countP (pairHits uid)
      ≤ L.countP (fun u => u.id == uid)
  | [] => by simp [pairConsecutive]
  | [a] => by simp [pairConsecutive]
  | a :: b :: r => by
      have ih := countP_pairConsecutive_le uid r
      simp only [pairConsecutive, List.countP_cons]
      cases h1 : a.id == uid <;> cases h2 : b.id == uid <;>
        simp [pairHits, h1, h2] <;> omega

/-- Members of a consecutive pair come from the paired list. -/
theorem mem_pairConsecutive (a b : User) :
    ∀ L : List User, (a, b) ∈ pairConsecutive L → a ∈ L ∧ b ∈ L
  | [] => by simp [pairConsecutive]
  | [x] => by simp [pairConsecutive]
  | x :: y :: r => by
      intro h
      simp only [pairConsecutive, List.mem_cons] at h
      rcases h with h | h
      · have h1 : a = x := congrArg Prod.fst h
        have h2 : b = y := congrArg Prod.snd h
        rw [h1, h2]
        exact ⟨List.mem_cons_self x (y :: r), List.mem_cons_of_mem x (List.mem_cons_self y r)⟩
      · obtain ⟨ha, hb⟩ := mem_pairConsecutive a b r h
        exact ⟨List.mem_cons_of_mem x (List.mem_cons_of_mem y ha),
               List.mem_cons_of_mem x (List.mem_cons_of_mem y hb)⟩

/-- The four gender buckets partition any user list: bucket-wise counts of
a user id sum to its count in the whole list. -/
theorem countP_gender_split (uid : String) (l : List User) :
    (l.filter (fun u => genderKey u == Gender.male)).countP (fun u => u.id == uid)
      + (l.filter (fun u => genderKey u == Gender.female)).countP (fun u => u.id == uid)
      + (l.filter (fun u => genderKey u == Gender.nonBinary)).countP (fun u => u.id == uid)
      + (l.filter (fun u => genderKey u == Gender.preferNotToSay)).countP (fun u => u.id == uid)
      = l.countP (fun u => u.id == uid) := by
  induction l with
  | nil => simp
  | cons u t ih =>
      cases hg : genderKey u <;> cases hid : u.id == uid <;>
        simp [List.filter_cons, List.countP_cons, hg, hid] <;> omega

/-- A duplicate-free list of ids contains a given id at most once. -/
theorem countP_beq_le_one (uid : String) :
    ∀ l : List String, l.Nodup → l.countP (fun x => x == uid) ≤ 1
  | [], _ => by simp
  | a :: t, h => by
      rcases List.nodup_cons.mp h with ⟨ha, ht⟩
      rw [List.countP_cons]
      cases hb : a == uid with
      | false =>
          simp only [hb, Bool.false_eq_true, if_false, Nat.add_zero]
          exact countP_beq_le_one uid t ht
      | true =>
          have hz : t.countP (fun x => x == uid) = 0 := by
            rw [List.countP_eq_zero]
            intro x hx hxe
            have hax : a = uid := by simpa using hb
            have hxu : x = uid := by simpa using hxe
            have : a ∈ t := by rw [hax, ← hxu]; exact hx
            exact ha this
          simp [hz]

/-- A user id occurs at most once among the available users when the user
table has no duplicate ids. -/
theorem countP_avail_le_one (s : Storage) (uid : String)
    (hids : (s.users.map User.id).Nodup) :
    (availableUsers s).countP (fun u => u.id == uid) ≤ 1 := by
  have hsub : List.Sublist (availableUsers s) s.users :=
    (List.filter_sublist _).trans (List.filter_sublist _)
  have hnd : ((availableUsers s).map User.id).Nodup :=
    List.Nodup.sublist (hsub.map User.id) hids
  have hmap : ((availableUsers s).map User.id).countP (fun x => x == uid)
      = (availableUsers s).countP (fun u => u.id == uid) :=
    List.countP_map (fun x => x == uid) User.id (availableUsers s)
  rw [← hmap]
  exact countP_beq_le_one uid _ hnd

/-- A user id occurs in the candidate pairs of a run at most as often as it
occurs among the available users. -/
theorem countP_candidate_le (s : Storage) (shuffle : List User → List User)
    (uid : String) (hperm : ∀ l, (shuffle l).Perm l) :
    (candidatePairs s shuffle).countP (pairHits uid)
      ≤ (availableUsers s).countP (fun u => u.id == uid) := by
  have hbucket : ∀ g, (pairConsecutive (shuffle (bucket s g))).countP (pairHits uid)
      ≤ (bucket s g).countP (fun u => u.id == uid) := by
    intro g
    calc (pairConsecutive (shuffle (bucket s g))).countP (pairHits uid)
        ≤ (shuffle (bucket s g)).countP (fun u => u.id == uid) :=
          countP_pairConsecutive_le uid _
      _ = (bucket s g).countP (fun u => u.id == uid) :=
          (hperm (bucket s g)).countP_eq _
  have hm := hbucket .male
  have hf := hbucket .female
  have hn := hbucket .nonBinary
  have hp := hbucket .preferNotToSay
  have hsplit := countP_gender_split uid (availableUsers s)
  unfold bucket at hm hf hn hp
  have hflat : (candidatePairs s shuffle).countP (pairHits uid)
      = (pairConsecutive (shuffle ((availableUsers s).filter
            (fun u => genderKey u == Gender.male)))).countP (pairHits uid)
        + ((pairConsecutive (shuffle ((availableUsers s).filter
            (fun u => genderKey u == Gender.female)))).countP (pairHits uid)
        + ((pairConsecutive (shuffle ((availableUsers s).filter
            (fun u => genderKey u == Gender.nonBinary)))).countP (pairHits uid)
        + (pairConsecutive (shuffle ((availableUsers s).filter
            (fun u => genderKey u == Gender.preferNotToSay)))).countP (pairHits uid))) := by
    simp [candidatePairs, genderList, bucket, List.countP_append]
  omega

/-- A user id appears in the records of one run at most once (under a
duplicate-free user table and a permuting shuffle). -/
theorem countP_new_le (s : Storage) (shuffle : List User → List User)
    (uid : String) (cd ed : Int) (hperm : ∀ l, (shuffle l).Perm l)
    (hids : (s.users.map User.id).Nodup) :
    (newPartnerships s shuffle cd ed).countP (activeWith uid) ≤ 1 := by
  rw [newPartnerships, countP_pairRecords]
  calc (acceptedPairs s shuffle).countP (pairHits uid)
      ≤ (candidatePairs s shuffle).countP (pairHits uid) :=
        (List.filter_sublist _).countP_le _
    _ ≤ (availableUsers s).countP (fun u => u.id == uid) :=
        countP_candidate_le s shuffle uid hperm
    _ ≤ 1 := countP_avail_le_one s uid hids

/-- Members of a candidate pair are available users from the same bucket. -/
theorem mem_candidate_avail (s : Storage) (shuffle : List User → List User)
    (a b : User) (hperm : ∀ l, (shuffle l).Perm l)
    (h : (a, b) ∈ candidatePairs s shuffle) :
    a ∈ availableUsers s ∧ b ∈ availableUsers s ∧ genderKey a = genderKey b := by
  unfold candidatePairs at h
  rw [List.mem_flatMap] at h
  obtain ⟨g, hgmem, hpair⟩ := h
  obtain ⟨ha, hb⟩ := mem_pairConsecutive a b _ hpair
  have ha' : a ∈ bucket s g := (hperm _).mem_iff.mp ha
  have hb' : b ∈ bucket s g := (hperm _).mem_iff.mp hb
  unfold bucket at ha' hb'
  have hag := List.mem_filter.mp ha'
  have hbg := List.mem_filter.mp hb'
  refine ⟨hag.1, hbg.1, ?_⟩
  have h1 : genderKey a = g := by simpa using hag.2
  have h2 : genderKey b = g := by simpa using hbg.2
  rw [h1, h2]

/-- An available user holds no active partnership in the pre-run state. -/
theorem avail_no_active (s : Storage) (u : User) (hu : u ∈ availableUsers s) :
    s.partnerships.countP (activeWith u.id) = 0 := by
  unfold availableUsers at hu
  have h2 := (List.mem_filter.mp hu).2
  cases hfind : s.partnerships.find? (activeWith u.id) with
  | some q =>
      unfold getActivePartnershipForUser at h2
      rw [hfind] at h2
      simp at h2
  | none =>
      rw [List.countP_eq_zero]
      exact List.find?_eq_none.mp hfind

/-- Two distinct members of a list both satisfying a predicate force a
count of at least two. -/
theorem two_le_countP {α : Type} [DecidableEq α] {p : α → Bool} {x y : α} :
    ∀ {l : List α}, x ∈ l → y ∈ l → x ≠ y → p x = true → p y = true →
      2 ≤ l.countP p
  | [], hx, _, _, _, _ => by cases hx
  | a :: t, hx, hy, hxy, hpx, hpy => by
      rw [List.countP_cons]
      rcases List.mem_cons.mp hx with h | hx'
      · have hy' : y ∈ t := by
          rcases List.mem_cons.mp hy with h2 | h2
          · exact absurd (h.trans h2.symm) hxy
          · exact h2
        have hpos : 0 < t.countP p := List.countP_pos_iff.mpr ⟨y, hy', hpy⟩
        have hpa : p a = true := by rw [← h]; exact hpx
        rw [if_pos hpa]
        omega
      · rcases List.mem_cons.mp hy with h | hy'
        · have hpos : 0 < t.countP p := List.countP_pos_iff.mpr ⟨x, hx', hpx⟩
          have hpa : p a = true := by rw [← h]; exact hpy
          rw [if_pos hpa]
          omega
        · have ih := two_le_countP hx' hy' hxy hpx hpy
          cases hpa : p a
          · simp only [Bool.false_eq_true, if_false, Nat.add_zero]
            omega
          · simp only [if_true]
            omega

/-- Claim C5: one complete matching cycle preserves the no-double-booking
invariant — if before the run every user id lies in at most one active
partnership, the same holds afterwards (assuming the user table has no
duplicate ids and the shuffle permutes its input, as the randomised sort
does). -/
theorem matching_no_double_booking (s : Storage) (shuffle : List User → List User)
    (cd ed : Int) (hperm : ∀ l, (shuffle l).Perm l)
    (hids : (s.users.map User.id).Nodup)
    (hinv : ∀ uid, s.partnerships.countP (activeWith uid) ≤ 1) :
    ∀ uid, (createMonthlyMatches s shuffle cd ed).partnerships.countP (activeWith uid) ≤ 1 := by
  intro uid
  rw [createMonthlyMatches, commitPairs_partnerships, List.countP_append]
  have hnew : (pairRecords s.nextId cd ed (acceptedPairs s shuffle)).countP (activeWith uid) ≤ 1 := by
    have h := countP_new_le s shuffle uid cd ed hperm hids
    rw [newPartnerships] at h
    exact h
  by_cases hz : (pairRecords s.nextId cd ed (acceptedPairs s shuffle)).countP (activeWith uid) = 0
  · rw [hz]
    simpa using hinv uid
  · have hpos : 0 < (pairRecords s.nextId cd ed (acceptedPairs s shuffle)).countP (activeWith uid) :=
      Nat.pos_of_ne_zero hz
    obtain ⟨p, hp, hpa⟩ := List.countP_pos_iff.mp hpos
    obtain ⟨ab, habmem, h1, h2, _⟩ := mem_pairRecords cd ed _ s.nextId p hp
    simp only [activeWith, appearsIn, Bool.and_eq_true, Bool.or_eq_true, beq_iff_eq] at hpa
    have habc : ab ∈ candidatePairs s shuffle := List.mem_of_mem_filter habmem
    obtain ⟨haav, hbav, _⟩ := mem_candidate_avail s shuffle ab.1 ab.2 hperm habc
    have hold : s.partnerships.countP (activeWith uid) = 0 := by
      rcases hpa.2 with h | h
      · have huid : uid = ab.1.id := by rw [← h, h1]
        rw [huid]
        exact avail_no_active s ab.1 haav
      · have huid : uid = ab.2.id := by rw [← h, h2]
        rw [huid]
        exact avail_no_active s ab.2 hbav
    rw [hold]
    simpa using hnew

/-- Claim C5 witness: the theorem applied to two available same-gender
users with an identity shuffle, read off at one concrete user id. -/
theorem matching_no_double_booking_witness :
    ((sTwo.users.map User.id).Nodup) ∧
    ((createMonthlyMatches sTwo (fun l => l) 0 30).partnerships.countP
        (activeWith "u1") ≤ 1) :=
  ⟨by decide,
   matching_no_double_booking sTwo (fun l => l) 0 30 (fun l => List.Perm.refl l)
     (by decide) (fun uid => by simp [sTwo, Storage.empty]) "u1"⟩

/-- Claim C6: every partnership a run creates passed the two-directional
exclusion screen against the pre-run state, and a candidate pair rejected
by the screen contributes neither member to any partnership of the run. -/
theorem matching_respects_exclusions (s : Storage) (shuffle : List User → List User)
    (cd ed : Int) (hperm : ∀ l, (shuffle l).Perm l)
    (hids : (s.users.map User.id).Nodup) :
    (∀ p ∈ newPartnerships s shuffle cd ed,
        isUserExcluded s p.user1Id p.user2Id = false ∧
        isUserExcluded s p.user2Id p.user1Id = false) ∧
    (∀ ab ∈ candidatePairs s shuffle, pairAllowed s ab.1 ab.2 = false →
        ∀ p ∈ newPartnerships s shuffle cd ed,
          appearsIn ab.1.id p = false ∧ appearsIn ab.2.id p = false) := by
  constructor
  · intro p hp
    rw [newPartnerships] at hp
    obtain ⟨ab, habmem, h1, h2, _⟩ := mem_pairRecords cd ed _ s.nextId p hp
    have habmem' : ab ∈ (candidatePairs s shuffle).filter
        (fun ab => pairAllowed s ab.1 ab.2) := habmem
    have hall0 := List.of_mem_filter habmem'
    have hall : pairAllowed s ab.1 ab.2 = true := hall0
    unfold pairAllowed at hall
    rw [Bool.and_eq_true, Bool.not_eq_true', Bool.not_eq_true'] at hall
    rw [h1, h2]
    exact ⟨hall.1, hall.2⟩
  · intro ab habc hrej p hp
    have hhits : ∀ uid, (candidatePairs s shuffle).countP (pairHits uid) ≤ 1 := by
      intro uid
      exact Nat.le_trans (countP_candidate_le s shuffle uid hperm)
        (countP_avail_le_one s uid hids)
    rw [newPartnerships] at hp
    obtain ⟨xy, hxymem, h1, h2, _⟩ := mem_pairRecords cd ed _ s.nextId p hp
    have hxyc : xy ∈ candidatePairs s shuffle := List.mem_of_mem_filter hxymem
    have hxymem' : xy ∈ (candidatePairs s shuffle).filter
        (fun ab => pairAllowed s ab.1 ab.2) := hxymem
    have hxyall0 := List.of_mem_filter hxymem'
    have hxyall : pairAllowed s xy.1 xy.2 = true := hxyall0
    have hne : ab ≠ xy := by
      intro he
      rw [he] at hrej
      rw [hrej] at hxyall
      exact absurd hxyall (by simp)
    have hha : ∀ uid, pairHits uid ab = true → appearsIn uid p = false := by
      intro uid hab
      cases hap : appearsIn uid p with
      | false => rfl
      | true =>
          have hxyhit : pairHits uid xy = true := by
            simp only [appearsIn, Bool.or_eq_true, beq_iff_eq, h1, h2] at hap
            simp only [pairHits, Bool.or_eq_true, beq_iff_eq]
            exact hap
          have h2le := two_le_countP habc hxyc hne hab hxyhit
          have h1le := hhits uid
          omega
    constructor
    · exact hha ab.1.id (by simp [pairHits])
    · exact hha ab.2.id (by simp [pairHits])

/-- Claim C6 witness: the first part of the theorem applied to the one
partnership the two-user run creates. -/
theorem matching_respects_exclusions_witness :
    isUserExcluded sTwo "u1" "u2" = false ∧ isUserExcluded sTwo "u2" "u1" = false := by
  have h := (matching_respects_exclusions sTwo (fun l => l) 0 30
    (fun l => List.Perm.refl l) (by decide)).1
  have hm : Partnership.mk 0 "u1" "u2" 0 30 .active
      ∈ newPartnerships sTwo (fun l => l) 0 30 := by decide
  exact ⟨(h _ hm).1, (h _ hm).2⟩

/-- Claim C7: both participants of every partnership a run creates are
available users of the same gender bucket; in particular one is in the
unspecified/flexible bucket exactly when the other is. -/
theorem matching_category_containment (s : Storage) (shuffle : List User → List User)
    (cd ed : Int) (hperm : ∀ l, (shuffle l).Perm l) :
    ∀ p ∈ newPartnerships s shuffle cd ed,
      ∃ a b, a ∈ availableUsers s ∧ b ∈ availableUsers s ∧
        p.user1Id = a.id ∧ p.user2Id = b.id ∧ genderKey a = genderKey b ∧
        (genderKey a = .preferNotToSay ↔ genderKey b = .preferNotToSay) := by
  intro p hp
  rw [newPartnerships] at hp
  obtain ⟨ab, habmem, h1, h2, _⟩ := mem_pairRecords cd ed _ s.nextId p hp
  have habc : ab ∈ candidatePairs s shuffle := List.mem_of_mem_filter habmem
  obtain ⟨ha, hb, hg⟩ := mem_candidate_avail s shuffle ab.1 ab.2 hperm habc
  exact ⟨ab.1, ab.2, ha, hb, h1, h2, hg, by rw [hg]⟩

/-- Claim C7 witness: the theorem applied to the one partnership the
two-user run creates forces its participants into the same bucket. -/
theorem matching_category_containment_witness :
    genderKey (mkUser "u1") = genderKey (mkUser "u2") := by
  obtain ⟨a, b, ha, hb, h1, h2, hg, _⟩ :=
    matching_category_containment sTwo (fun l => l) 0 30 (fun l => List.Perm.refl l)
      ({ id := 0, user1Id := "u1", user2Id := "u2", startDate := 0,
         endDate := 30, status := .active } : Partnership) (by decide)
  have hav : availableUsers sTwo = [mkUser "u1", mkUser "u2"] := by decide
  rw [hav] at ha hb
  have hA : a = mkUser "u1" := by
    rcases List.mem_cons.mp ha with h | h
    · exact h
    · rcases List.mem_cons.mp h with h' | h'
      · rw [h'] at h1
        exact absurd h1 (by decide)
      · cases h'
  have hB : b = mkUser "u2" := by
    rcases List.mem_cons.mp hb with h | h
    · rw [h] at h2
      exact absurd h2 (by decide)
    · rcases List.mem_cons.mp h with h' | h'
      · exact h'
      · cases h'
  rw [hA, hB] at hg
  exact hg

/-- Behaviour of the commit loop under the failure oracle: with no failure
it commits everything; the first failing insert aborts the loop, keeping
exactly the pairs committed before it. -/
theorem commitPairsF_spec (cd ed : Int) (fail : Nat → Bool) :
    ∀ (ps : List (User × User)) (st : Storage) (k : Nat),
      ((∀ i, i < ps.length → fail (k + i) = false) →
        commitPairsF st cd ed fail k ps = (true, commitPairs st cd ed ps)) ∧
      (∀ j, j < ps.length → fail (k + j) = true → (∀ i, i < j → fail (k + i) = false) →
        commitPairsF st cd ed fail k ps = (false, commitPairs st cd ed (ps.take j)))
  | [], st, k => by
      constructor
      · intro _
        rfl
      · intro j hj
        exact absurd hj (Nat.not_lt_zero j)
  | ab :: rest, st, k => by
      constructor
      · intro h
        have h0 : fail k = false := by simpa using h 0 (Nat.succ_pos rest.length)
        simp only [commitPairsF, h0, Bool.false_eq_true, if_false, commitPairs]
        exact (commitPairsF_spec cd ed fail rest _ (k + 1)).1 (fun i hi => by
          rw [show k + 1 + i = k + (i + 1) by omega]
          exact h (i + 1) (by simpa using Nat.succ_lt_succ hi))
      · intro j hj hfj hprev
        cases j with
        | zero =>
            have h0 : fail k = true := by simpa using hfj
            simp only [commitPairsF, h0, if_true, List.take_zero, commitPairs]
        | succ j' =>
            have h0 : fail k = false := by simpa using hprev 0 (Nat.succ_pos j')
            simp only [commitPairsF, h0, Bool.false_eq_true, if_false,
              List.take_succ_cons, commitPairs]
            exact (commitPairsF_spec cd ed fail rest _ (k + 1)).2 j'
              (by simpa using Nat.lt_of_succ_lt_succ hj)
              (by rw [show k + 1 + j' = k + (j' + 1) by omega]; exact hfj)
              (fun i hi => by
                rw [show k + 1 + i = k + (i + 1) by omega]
                exact hprev (i + 1) (Nat.succ_lt_succ hi))

/-- Claim C8 (amended): the matching run has no per-pair error isolation.
With no persistence failure every accepted pair is committed; but the first
failing insert aborts the run — pairs committed before it remain, and every
later accepted pair, however independent, is not created (the route answers
500). -/
theorem matching_failure_aborts_run (s : Storage) (shuffle : List User → List User)
    (cd ed : Int) (fail : Nat → Bool) :
    ((∀ i, i < (acceptedPairs s shuffle).length → fail i = false) →
      createMonthlyMatchesF s shuffle cd ed fail
        = (true, createMonthlyMatches s shuffle cd ed)) ∧
    (∀ j, j < (acceptedPairs s shuffle).length → fail j = true →
      (∀ i, i < j → fail i = false) →
      createMonthlyMatchesF s shuffle cd ed fail
        = (false, commitPairs s cd ed ((acceptedPairs s shuffle).take j)) ∧
      (createMonthlyMatchesF s shuffle cd ed fail).2.partnerships
        = s.partnerships ++ pairRecords s.nextId cd ed ((acceptedPairs s shuffle).take j)) := by
  have spec := commitPairsF_spec cd ed fail (acceptedPairs s shuffle) s 0
  constructor
  · intro h
    exact spec.1 (fun i hi => by simpa using h i hi)
  · intro j hj hfj hprev
    have heq := spec.2 j hj (by simpa using hfj) (fun i hi => by simpa using hprev i hi)
    have heq' : createMonthlyMatchesF s shuffle cd ed fail
        = (false, commitPairs s cd ed ((acceptedPairs s shuffle).take j)) := heq
    refine ⟨heq', ?_⟩
    rw [heq']
    exact commitPairs_partnerships cd ed _ s

/-- Claim C8 witness: with four available users (two accepted pairs) and a
failure on the second insert, exactly the first pair is committed. -/
theorem matching_failure_aborts_run_witness :
    (1 < (acceptedPairs sFour (fun l => l)).length) ∧
    (decide ((1 : Nat) = 1) = true) ∧
    (decide ((0 : Nat) = 1) = false) ∧
    (createMonthlyMatchesF sFour (fun l => l) 0 30 (fun i => decide (i = 1))
      = (false, commitPairs sFour 0 30 ((acceptedPairs sFour (fun l => l)).take 1))) :=
  ⟨by decide, by decide, by decide,
   ((matching_failure_aborts_run sFour (fun l => l) 0 30 (fun i => decide (i = 1))).2
     1 (by decide) (by decide) (by decide)).1⟩

/-- Claim C8 counterexample: four available users give two independent
accepted pairs; a persistence failure on the very first insert leaves zero
partnerships — the second accepted pair is not committed, contradicting the
claim that other pairs still commit. -/
theorem matching_failure_blocks_other_pairs :
    (acceptedPairs sFour (fun l => l)).length = 2 ∧
    (createMonthlyMatchesF sFour (fun l => l) 0 30 (fun i => decide (i = 0))).2.partnerships.length = 0 := by
  decide
